import Mathlib

/-!
Shallow embedding of the CodeQL action configuration engine (`config-utils.ts`):
path-filter validation, query `uses` parsing, query-resolution bookkeeping,
language resolution and the config load/merge pipeline.

Strings are modelled as lists of characters (`Str`).  All external effects of
the Typescript code (the `codeql resolve queries` subprocess, the filesystem,
the repository metadata API, the external-repository checkout and the remote
config fetch) are modelled as explicit oracles collected in an `Env` record,
so every function of the source becomes a pure Lean function of the `Env`.
-/

/-- Strings of the Typescript source, modelled as lists of characters. -/
abbrev Str := List Char

/-- Decidable equality for `Except`, used to evaluate concrete runs. -/
instance {ε α : Type} [DecidableEq ε] [DecidableEq α] : DecidableEq (Except ε α) := fun x y =>
  match x, y with
  | .ok a, .ok b =>
    if h : a = b then isTrue (by rw [h]) else isFalse (by intro hc; cases hc; exact h rfl)
  | .error a, .error b =>
    if h : a = b then isTrue (by rw [h]) else isFalse (by intro hc; cases hc; exact h rfl)
  | .ok _, .error _ => isFalse (by intro hc; cases hc)
  | .error _, .ok _ => isFalse (by intro hc; cases hc)

/-- `path.sep` of the posix path module. -/
def pathSep : Char := '/'

/-- JS `String.prototype.trimStart`: drop leading whitespace. -/
def trimStart (l : Str) : Str := l.dropWhile (fun c => c.isWhitespace)

/-- JS `String.prototype.trim`: drop leading and trailing whitespace. -/
def trimStr (l : Str) : Str :=
  ((trimStart l).reverse.dropWhile (fun c => c.isWhitespace)).reverse

/-- JS `String.prototype.split` with a one-character separator.
`splitOnChar c ""` is `[""]`, as in JS. -/
def splitOnChar (c : Char) : Str → List Str
  | [] => [[]]
  | x :: xs =>
    match splitOnChar c xs with
    | [] => if x = c then [[], []] else [[x]]
    | h :: t => if x = c then [] :: h :: t else (x :: h) :: t

/-- JS `a.startsWith(b)` (also covering `indexOf(b) === 0` for our uses). -/
def strStartsWith (s pre : Str) : Bool := pre.isPrefixOf s

/-- JS `Array.prototype.join("/")`. -/
def joinSlash (parts : List Str) : Str := List.intercalate ['/'] parts

/-- `path.join(a, b)` of the posix path module.  Normalization of `.` and
`..` segments is not performed textually; the filesystem oracles of `Env`
interpret the joined string, which is where `..` resolution matters. -/
def pathJoin (a b : Str) : Str := a ++ pathSep :: b

/-- `path.resolve(base, p)`: an absolute `p` wins, otherwise `p` is joined
onto `base` (textual model, without `.`/`..` normalization). -/
def pathResolve (base p : Str) : Str :=
  if p.head? = some '/' then p else pathJoin base p

/-- The reason a path filter was rejected by `validateAndSanitisePath`. -/
inductive PathErrKind where
  | emptyPath
  | invalidStars
  | backslashInPath
deriving DecidableEq

/-- The distinct fatal errors thrown by the source (each constructor models
one of the error-message builders of `config-utils.ts`; payloads record the
data interpolated into the message). -/
inductive CfgError where
  /-- `getNameInvalid` -/
  | nameInvalid (configFile : Str)
  /-- `getQueryUsesInvalid(configFile, queryUses?)` -/
  | queryUsesInvalid (configFile : Option Str) (queryUses : Option Str)
  /-- `getLocalPathDoesNotExist` -/
  | localPathDoesNotExist (configFile : Option Str) (localPath : Str)
  /-- `getLocalPathOutsideOfRepository` -/
  | localPathOutsideOfRepository (configFile : Option Str) (localPath : Str)
  /-- error of `validateQueries` for queries declaring no language -/
  | noDeclaredLanguage (queries : List Str)
  /-- error of `validateQueries` for queries declaring several languages -/
  | multipleDeclaredLanguages (queries : List Str)
  /-- `getConfigFilePropertyError` produced by `validateAndSanitisePath` -/
  | invalidPathFilter (configFile propertyName originalPath : Str) (kind : PathErrKind)
  /-- `getPathsIgnoreInvalid` -/
  | pathsIgnoreInvalid (configFile : Str)
  /-- `getPathsInvalid` -/
  | pathsInvalid (configFile : Str)
  /-- `getNoLanguagesError` -/
  | noLanguages
  /-- `getUnknownLanguagesError` -/
  | unknownLanguages (languages : List Str)
  /-- the `Did not detect any queries to run for <language>` error of `loadConfig` -/
  | noQueriesForLanguage (language : Str)
  /-- `getConfigFileOutsideWorkspaceErrorMessage` -/
  | configFileOutsideWorkspace (configFile : Str)
  /-- `getConfigFileDoesNotExistErrorMessage` -/
  | configFileDoesNotExist (configFile : Str)
  /-- any error of `getRemoteConfig` (out of scope, produced by its oracle) -/
  | remoteConfigError (message : Str)
deriving DecidableEq

/-- The `while (newPath.charAt(0) === "/")` loop of `validateAndSanitisePath`:
strip all leading slashes. -/
def stripLeadingSlashes : Str → Str
  | [] => []
  | c :: cs => if c = '/' then stripLeadingSlashes cs else c :: cs

/-- Core of the trailing-`**` strip, phrased on the reversed string: a string
ending in `/**` loses its last two characters (`newPath.substring(0,
newPath.length - 2)` under `newPath.endsWith("/**")`), keeping the slash. -/
def dropTrailingStarsRev : Str → Str
  | '*' :: '*' :: '/' :: rest => '/' :: rest
  | l => l

/-- `if (newPath.endsWith("/**")) newPath = newPath.substring(0,
newPath.length - 2)` of the source. -/
def dropTrailingStars (l : Str) : Str := (dropTrailingStarsRev l.reverse).reverse

/-- The test `newPath.match(pathStarsRegex)` where
`pathStarsRegex = /.*(?:\x2a\x2a[^\x2f].*|\x2a\x2a$|[^\x2f]\x2a\x2a.*)/`:
the string contains an occurrence of `**` that is followed by a character
other than `/` (first alternative), or sits at the end of the string (second
alternative), or is preceded by a character other than `/` (third
alternative).  Position `i` ranges over all starts of a `**` occurrence. -/
def hasBadStars (l : Str) : Bool :=
  (List.range l.length).any (fun i =>
    decide (l.get? i = some '*') && decide (l.get? (i + 1) = some '*') &&
      ((decide (0 < i) && !decide (l.get? (i - 1) = some '/')) ||
        !decide (l.get? (i + 2) = some '/')))

/-- `validateAndSanitisePath(originalPath, propertyName, configFile, logger)`.
The non-fatal warning for the filter characters `?`, `+`, `[`, `]`, `!`
(which does not alter the result) is omitted. -/
def validateAndSanitisePath (originalPath propertyName configFile : Str) :
    Except CfgError Str :=
  let newPath := dropTrailingStars (stripLeadingSlashes originalPath)
  if newPath = [] then
    .error (.invalidPathFilter configFile propertyName originalPath .emptyPath)
  else if hasBadStars newPath then
    .error (.invalidPathFilter configFile propertyName originalPath .invalidStars)
  else if newPath.contains '\\' then
    .error (.invalidPathFilter configFile propertyName originalPath .backslashInPath)
  else
    .ok newPath

example : validateAndSanitisePath ("/foo/**".toList) ("p".toList) ("f".toList)
    = .ok ("foo/".toList) := by decide

example : validateAndSanitisePath ("foo/**/bar".toList) ("p".toList) ("f".toList)
    = .ok ("foo/**/bar".toList) := by decide

example : validateAndSanitisePath ("foo/**bar".toList) ("p".toList) ("f".toList)
    = .error (.invalidPathFilter ("f".toList) ("p".toList) ("foo/**bar".toList) .invalidStars) := by
  decide

example : validateAndSanitisePath ("/**".toList) ("p".toList) ("f".toList)
    = .error (.invalidPathFilter ("f".toList) ("p".toList) ("/**".toList) .invalidStars) := by
  decide

example : validateAndSanitisePath ("a\\b".toList) ("p".toList) ("f".toList)
    = .error (.invalidPathFilter ("f".toList) ("p".toList) ("a\\b".toList) .backslashInPath) := by
  decide

/-- One group of user-defined queries with the search path used to resolve
their library dependencies (`QueriesWithSearchPath` of the source). -/
structure QueriesWithSearchPath where
  searchPath : Str
  queries : List Str
deriving DecidableEq

/-- The per-language entry of the `Queries` map of the source. -/
structure LangQ where
  builtin : List Str
  custom : List QueriesWithSearchPath
deriving DecidableEq

/-- The `Queries` map of the source (`{[language: string]: {builtin, custom}}`),
modelled as an association list in insertion order. -/
abbrev QueriesMap := List (Str × LangQ)

/-- `resolveQueries` output of the external resolver (`ResolveQueriesOutput`):
`byLanguage` keeps, per language, the list of resolved query paths
(`Object.keys` of the per-language object); the two error buckets are the
key lists of the corresponding objects. -/
structure ResolveQueriesOutput where
  byLanguage : List (Str × List Str)
  noDeclaredLanguage : List Str
  multipleDeclaredLanguages : List Str
deriving DecidableEq

/-- `DISABLED_BUILTIN_QUERIES`. -/
def DISABLED_BUILTIN_QUERIES : List (Str × List Str) :=
  [("csharp".toList,
    ["ql/src/Security Features/CWE-937/VulnerablePackage.ql".toList,
     "ql/src/Security Features/CWE-451/MissingXFrameOptions.ql".toList])]

/-- JS `String.prototype.endsWith`. -/
def strEndsWith (s suf : Str) : Bool := suf.isSuffixOf s

/-- `queryIsDisabled(language, query)`. -/
def queryIsDisabled (language query : Str) : Bool :=
  (((DISABLED_BUILTIN_QUERIES.find? (fun e => e.1 = language)).map (·.2)).getD []).any
    (fun disabledQuery => strEndsWith query disabledQuery)

/-- `validateQueries(resolvedQueries)`: both error buckets must be empty. -/
def validateQueries (resolvedQueries : ResolveQueriesOutput) : Except CfgError Unit :=
  if resolvedQueries.noDeclaredLanguage.length ≠ 0 then
    .error (.noDeclaredLanguage resolvedQueries.noDeclaredLanguage)
  else if resolvedQueries.multipleDeclaredLanguages.length ≠ 0 then
    .error (.multipleDeclaredLanguages resolvedQueries.multipleDeclaredLanguages)
  else
    .ok ()

/-- The raw parsed user config (`UserConfig` of the source).  The source
receives untyped YAML and checks each property's type on access; here each
property is an optional well-typed field, so the type-mismatch errors of the
source have no counterpart (a mistyped property is not representable).  A
query entry whose `uses` is missing or not a string is modelled by
`uses = none`. -/
structure QueryEntry where
  name : Option Str := none
  uses : Option Str := none
deriving DecidableEq

/-- See `QueryEntry`. -/
structure UserConfig where
  name : Option Str := none
  disableDefaultQueries : Option Bool := none
  queries : Option (List QueryEntry) := none
  pathsIgnore : Option (List Str) := none
  paths : Option (List Str) := none
deriving DecidableEq

/-- The external collaborators of `config-utils.ts`, as oracles:
`resolveQueries` is the `codeql resolve queries` subprocess; `fsExists` and
`fsRealpath` are `fs.existsSync` and `fs.realpathSync`; `parseLang` is
`parseLanguage` from `./languages` (an arbitrary total map from names to
canonical language names); `repoLanguages` is `Object.keys(response.data)` of
the `listLanguages` API call; `checkoutExternalRepository nwo ref tempDir`
is the external checkout; `localYaml` is `yaml.safeLoad(fs.readFileSync f)`;
`remoteConfig` is `getRemoteConfig` (remote fetch, decode and parse). -/
structure Env where
  resolveQueries : List Str → Option Str → ResolveQueriesOutput
  fsExists : Str → Bool
  fsRealpath : Str → Str
  parseLang : Str → Option Str
  repoLanguages : List Str
  checkoutExternalRepository : Str → Str → Str → Str
  localYaml : Str → UserConfig
  remoteConfig : Str → Except CfgError UserConfig

/-- The body of the `for (const [language, queryPaths] of ...)` loop of
`runResolveQueries`: create the language's entry on first use (insertion
order preserved), then append to `custom` or `builtin`. -/
def updateLang (m : QueriesMap) (language : Str) (f : LangQ → LangQ) : QueriesMap :=
  match m with
  | [] => [(language, f ⟨[], []⟩)]
  | (l, q) :: rest =>
    if l = language then (l, f q) :: rest else (l, q) :: updateLang rest language f

/-- The merge loop of `runResolveQueries` over `resolvedQueries.byLanguage`. -/
def mergeResolved (m : QueriesMap) (byLanguage : List (Str × List Str))
    (extraSearchPath : Option Str) : QueriesMap :=
  byLanguage.foldl (fun m lq =>
    let queries := lq.2.filter (fun q => !queryIsDisabled lq.1 q)
    match extraSearchPath with
    | some p => updateLang m lq.1 (fun langQ => { langQ with custom := langQ.custom ++ [⟨p, queries⟩] })
    | none => updateLang m lq.1 (fun langQ => { langQ with builtin := langQ.builtin ++ queries })) m

/-- `runResolveQueries(codeQL, resultMap, toResolve, extraSearchPath)`:
validation runs only when an extra search path (custom queries) is given. -/
def runResolveQueries (env : Env) (resultMap : QueriesMap) (toResolve : List Str)
    (extraSearchPath : Option Str) : Except CfgError QueriesMap :=
  let resolvedQueries := env.resolveQueries toResolve extraSearchPath
  match extraSearchPath with
  | some _ =>
    match validateQueries resolvedQueries with
    | .error e => .error e
    | .ok _ => .ok (mergeResolved resultMap resolvedQueries.byLanguage extraSearchPath)
  | none => .ok (mergeResolved resultMap resolvedQueries.byLanguage extraSearchPath)

/-- The per-language default suite names `<language>-code-scanning.qls` of
`addDefaultQueries`. -/
def defaultSuites (languages : List Str) : List Str :=
  languages.map (fun l => l ++ "-code-scanning.qls".toList)

/-- `addDefaultQueries(codeQL, languages, resultMap)`. -/
def addDefaultQueries (env : Env) (languages : List Str) (resultMap : QueriesMap) :
    Except CfgError QueriesMap :=
  runResolveQueries env resultMap (defaultSuites languages) none

/-- `builtinSuites`. -/
def builtinSuites : List Str := ["security-extended".toList, "security-and-quality".toList]

/-- `addBuiltinSuiteQueries(languages, codeQL, resultMap, suiteName, configFile?)`. -/
def addBuiltinSuiteQueries (env : Env) (languages : List Str) (resultMap : QueriesMap)
    (suiteName : Str) (configFile : Option Str) : Except CfgError QueriesMap :=
  if !builtinSuites.contains suiteName then
    .error (.queryUsesInvalid configFile (some suiteName))
  else
    let suites := languages.map (fun l => l ++ '-' :: suiteName ++ ".qls".toList)
    runResolveQueries env resultMap suites none

/-- `addLocalQueries(codeQL, resultMap, localQueryPath, checkoutPath, configFile?)`. -/
def addLocalQueries (env : Env) (resultMap : QueriesMap) (localQueryPath checkoutPath : Str)
    (configFile : Option Str) : Except CfgError QueriesMap :=
  let absoluteQueryPath := pathJoin checkoutPath localQueryPath
  if !env.fsExists absoluteQueryPath then
    .error (.localPathDoesNotExist configFile localQueryPath)
  else
    let absoluteQueryPath := env.fsRealpath absoluteQueryPath
    if !strStartsWith (absoluteQueryPath ++ [pathSep]) (env.fsRealpath checkoutPath ++ [pathSep]) then
      .error (.localPathOutsideOfRepository configFile localQueryPath)
    else
      runResolveQueries env resultMap [absoluteQueryPath] (some checkoutPath)

/-- `addRemoteQueries(codeQL, resultMap, queryUses, tempDir, apiDetails,
logger, configFile?)`: split on `@` (exactly two parts required), split the
locator on `/`, require non-blank owner and repo, check out the repository
and resolve the optional subpath against the checkout. -/
def addRemoteQueries (env : Env) (resultMap : QueriesMap) (queryUses : Str) (tempDir : Str)
    (configFile : Option Str) : Except CfgError QueriesMap :=
  match splitOnChar '@' queryUses with
  | [locator, ref] =>
    (match splitOnChar '/' locator with
     | t0 :: t1 :: rest =>
       if (trimStr t0).isEmpty || (trimStr t1).isEmpty then
         .error (.queryUsesInvalid configFile (some queryUses))
       else
         let nwo := t0 ++ '/' :: t1
         let checkoutPath := env.checkoutExternalRepository nwo ref tempDir
         let queryPath :=
           if rest.length > 0 then pathJoin checkoutPath (joinSlash rest) else checkoutPath
         runResolveQueries env resultMap [queryPath] (some checkoutPath)
     | _ => .error (.queryUsesInvalid configFile (some queryUses)))
  | _ => .error (.queryUsesInvalid configFile (some queryUses))

/-- `parseQueryUses(languages, codeQL, resultMap, queryUses, tempDir,
checkoutPath, apiDetails, logger, configFile?)`: trim, reject empty,
dispatch on `./` prefix, then bare builtin-suite names (no `/` and no `@`),
otherwise a remote repository reference. -/
def parseQueryUses (env : Env) (languages : List Str) (resultMap : QueriesMap)
    (queryUses : Str) (tempDir checkoutPath : Str) (configFile : Option Str) :
    Except CfgError QueriesMap :=
  let queryUses := trimStr queryUses
  if queryUses.isEmpty then
    .error (.queryUsesInvalid configFile none)
  else if strStartsWith queryUses ("./".toList) then
    addLocalQueries env resultMap (queryUses.drop 2) checkoutPath configFile
  else if !queryUses.contains '/' && !queryUses.contains '@' then
    addBuiltinSuiteQueries env languages resultMap queryUses configFile
  else
    addRemoteQueries env resultMap queryUses tempDir configFile

/-- `shouldAddConfigFileQueries(queriesInput)`: true when no workflow query
input was given (undefined or, being falsy, the empty string), or when the
input starts (after `trimStart`) with `+`. -/
def shouldAddConfigFileQueries (queriesInput : Option Str) : Bool :=
  match queriesInput with
  | some qi => if qi.isEmpty then true else decide ((trimStart qi).take 1 = ['+'])
  | none => true

/-- `queriesInput.replace(/^\x2b/, "")`: remove one leading `+`. -/
def stripOnePlus : Str → Str
  | '+' :: rest => rest
  | l => l

/-- Trace of the query sources merged into the result map, recorded in
declaration order: one `defaults` event for the `addDefaultQueries` call and
one `uses u` event for each `parseQueryUses(…, u, …)` call. -/
inductive TraceEv where
  | defaults
  | uses (u : Str)
deriving DecidableEq

/-- The `for (const query of queriesInput.split(","))` loop of
`addQueriesFromWorkflow` generalized to any uses list: parse each entry in
order against the accumulating map, recording a trace event per entry. -/
def parseUsesList (env : Env) (languages : List Str) (qs : List Str) (m : QueriesMap)
    (tempDir checkoutPath : Str) (configFile : Option Str) :
    Except CfgError (QueriesMap × List TraceEv) :=
  match qs with
  | [] => .ok (m, [])
  | u :: rest =>
    match parseQueryUses env languages m u tempDir checkoutPath configFile with
    | .error e => .error e
    | .ok m2 =>
      match parseUsesList env languages rest m2 tempDir checkoutPath configFile with
      | .error e => .error e
      | .ok (m3, tr) => .ok (m3, TraceEv.uses u :: tr)

/-- `addQueriesFromWorkflow(codeQL, queriesInput, languages, resultMap,
tempDir, checkoutPath, apiDetails, logger)`: trim, strip one leading `+`,
split on commas and parse each piece (no config file in error messages). -/
def addQueriesFromWorkflow (env : Env) (queriesInput : Str) (languages : List Str)
    (resultMap : QueriesMap) (tempDir checkoutPath : Str) :
    Except CfgError (QueriesMap × List TraceEv) :=
  parseUsesList env languages (splitOnChar ',' (stripOnePlus (trimStr queriesInput)))
    resultMap tempDir checkoutPath none

/-- The `for (const query of parsedYAML[QUERIES_PROPERTY])` loop of
`loadConfig`: each entry must carry a string `uses` property. -/
def parseConfigQueries (env : Env) (languages : List Str) (qs : List QueryEntry)
    (m : QueriesMap) (tempDir checkoutPath configFile : Str) :
    Except CfgError (QueriesMap × List TraceEv) :=
  match qs with
  | [] => .ok (m, [])
  | e :: rest =>
    match e.uses with
    | none => .error (.queryUsesInvalid (some configFile) none)
    | some u =>
      match parseQueryUses env languages m u tempDir checkoutPath (some configFile) with
      | .error err => .error err
      | .ok m2 =>
        match parseConfigQueries env languages rest m2 tempDir checkoutPath configFile with
        | .error err => .error err
        | .ok (m3, tr) => .ok (m3, TraceEv.uses u :: tr)

/-- `if (queriesInput) { await addQueriesFromWorkflow(...) }` — the workflow
query input applies only when truthy (present and non-empty). -/
def workflowStage (env : Env) (languages : List Str) (queriesInput : Option Str)
    (m : QueriesMap) (tempDir checkoutPath : Str) :
    Except CfgError (QueriesMap × List TraceEv) :=
  match queriesInput with
  | some qi =>
    if qi.isEmpty then .ok (m, [])
    else addQueriesFromWorkflow env qi languages m tempDir checkoutPath
  | none => .ok (m, [])

/-- `if (shouldAddConfigFileQueries(queriesInput) && QUERIES_PROPERTY in
parsedYAML) { ... }` of `loadConfig`. -/
def configFileStage (env : Env) (languages : List Str) (queriesInput : Option Str)
    (yamlQueries : Option (List QueryEntry)) (m : QueriesMap)
    (tempDir checkoutPath configFile : Str) :
    Except CfgError (QueriesMap × List TraceEv) :=
  if shouldAddConfigFileQueries queriesInput then
    match yamlQueries with
    | some qs => parseConfigQueries env languages qs m tempDir checkoutPath configFile
    | none => .ok (m, [])
  else
    .ok (m, [])

/-- The query-merging portion of `loadConfig` (the `disable-default-queries`
flag, `addDefaultQueries`, `addQueriesFromWorkflow` and the config-file
query loop, in source order), also returning the trace of merged sources. -/
def computeQueries (env : Env) (languages : List Str) (queriesInput : Option Str)
    (yaml : UserConfig) (tempDir checkoutPath configFile : Str) :
    Except CfgError (QueriesMap × List TraceEv) :=
  let disableDefaultQueries := yaml.disableDefaultQueries.getD false
  match (if disableDefaultQueries then .ok ([], []) else
      match addDefaultQueries env languages [] with
      | .error e => .error e
      | .ok m => .ok (m, [TraceEv.defaults]) :
      Except CfgError (QueriesMap × List TraceEv)) with
  | .error e => .error e
  | .ok (m1, tr1) =>
    match workflowStage env languages queriesInput m1 tempDir checkoutPath with
    | .error e => .error e
    | .ok (m2, tr2) =>
      match configFileStage env languages queriesInput yaml.queries m2 tempDir checkoutPath configFile with
      | .error e => .error e
      | .ok (m3, tr3) => .ok (m3, tr1 ++ tr2 ++ tr3)

/-- The dedup step of the language loops: append unless already present
(`indexOf === -1` in `getLanguages`, `Set` insertion in
`getLanguagesInRepo`), preserving first-seen order. -/
def dedupFirst (l : List Str) : List Str :=
  l.foldl (fun acc x => if acc.contains x then acc else acc ++ [x]) []

/-- `getLanguagesInRepo(repository, apiDetails, logger)`: map each language
name reported by the API through `parseLanguage`, dropping unknown ones and
deduplicating in API (popularity) order. -/
def getLanguagesInRepo (parseLang : Str → Option Str) (repoLangs : List Str) : List Str :=
  dedupFirst (repoLangs.filterMap parseLang)

/-- The explicit-input preprocessing of `getLanguages`:
`(languagesInput || "").split(",").map(x => x.trim()).filter(x => x.length > 0)`. -/
def explicitLangTokens (languagesInput : Str) : List Str :=
  ((splitOnChar ',' languagesInput).map trimStr).filter (fun x => !x.isEmpty)

/-- The parse-and-dedup loop of `getLanguages`: returns the parsed languages
(first-seen order, deduplicated) and the unknown tokens (in order). -/
def parseLangList (parseLang : Str → Option Str) (languages : List Str) :
    List Str × List Str :=
  languages.foldl (fun acc language =>
    match parseLang language with
    | none => (acc.1, acc.2 ++ [language])
    | some p => (if acc.1.contains p then acc.1 else acc.1 ++ [p], acc.2)) ([], [])

/-- `getLanguages(languagesInput, repository, apiDetails, logger)`. -/
def getLanguages (parseLang : Str → Option Str) (languagesInput : Option Str)
    (repoLangs : List Str) : Except CfgError (List Str) :=
  let fromInput := explicitLangTokens (languagesInput.getD [])
  let languages := if fromInput.isEmpty then getLanguagesInRepo parseLang repoLangs else fromInput
  if languages.isEmpty then
    .error .noLanguages
  else
    let parsed := parseLangList parseLang languages
    if !parsed.2.isEmpty then .error (.unknownLanguages parsed.2)
    else .ok parsed.1

/-- The resolved configuration (`Config` of the source).  The
`gitHubVersion` field carries no configuration logic and is omitted. -/
structure Config where
  languages : List Str
  queries : QueriesMap
  pathsIgnore : List Str
  paths : List Str
  originalUserInput : UserConfig
  tempDir : Str
  toolCacheDir : Str
  codeQLCmd : Str
deriving DecidableEq

/-- The `NAME_PROPERTY` validation of `loadConfig`: a present name must be a
non-empty string (the non-string case is unrepresentable in the typed
model). -/
def checkName (yaml : UserConfig) (configFile : Str) : Except CfgError Unit :=
  match yaml.name with
  | some n => if n.isEmpty then .error (.nameInvalid configFile) else .ok ()
  | none => .ok ()

/-- The `paths-ignore` / `paths` loops of `loadConfig`: reject empty entries
(`emptyErr` is `getPathsIgnoreInvalid` or `getPathsInvalid`; the non-string
case is unrepresentable), sanitise each entry, keep order. -/
def processPathFilters (entries : List Str) (propertyName configFile : Str)
    (emptyErr : CfgError) : Except CfgError (List Str) :=
  match entries with
  | [] => .ok []
  | p :: rest =>
    if p.isEmpty then .error emptyErr
    else
      match validateAndSanitisePath p propertyName configFile with
      | .error e => .error e
      | .ok np =>
        match processPathFilters rest propertyName configFile emptyErr with
        | .error e => .error e
        | .ok nps => .ok (np :: nps)

/-- Does `language` have at least one builtin or custom query in `m`?
(The test negated by the final loop of `loadConfig`.) -/
def langHasQueries (m : QueriesMap) (language : Str) : Bool :=
  match (m.find? (fun e => e.1 = language)).map (·.2) with
  | none => false
  | some q => !(q.builtin.isEmpty && q.custom.isEmpty)

/-- The final loop of `loadConfig`: the first language with an undefined
entry or with empty builtin and custom lists aborts the run. -/
def checkQueriesNotEmpty (languages : List Str) (m : QueriesMap) : Except CfgError Unit :=
  match languages.find? (fun l => !langHasQueries m l) with
  | some l => .error (.noQueriesForLanguage l)
  | none => .ok ()

/-- The body of `loadConfig` after the user config has been read, in source
order: name validation, language resolution, query merging, path-filter
processing, then the per-language non-emptiness check before the config
value is produced. -/
def loadConfigWithYaml (env : Env) (yaml : UserConfig)
    (languagesInput queriesInput : Option Str)
    (configFile tempDir toolCacheDir codeQLCmd checkoutPath : Str) :
    Except CfgError Config :=
  match checkName yaml configFile with
  | .error e => .error e
  | .ok _ =>
    match getLanguages env.parseLang languagesInput env.repoLanguages with
    | .error e => .error e
    | .ok languages =>
      match computeQueries env languages queriesInput yaml tempDir checkoutPath configFile with
      | .error e => .error e
      | .ok mq =>
        match (match yaml.pathsIgnore with
          | some l => processPathFilters l ("paths-ignore".toList) configFile (.pathsIgnoreInvalid configFile)
          | none => .ok []) with
        | .error e => .error e
        | .ok pathsIgnore =>
          match (match yaml.paths with
            | some l => processPathFilters l ("paths".toList) configFile (.pathsInvalid configFile)
            | none => .ok []) with
          | .error e => .error e
          | .ok paths =>
            match checkQueriesNotEmpty languages mq.1 with
            | .error e => .error e
            | .ok _ =>
              .ok { languages := languages, queries := mq.1, pathsIgnore := pathsIgnore,
                    paths := paths, originalUserInput := yaml, tempDir := tempDir,
                    toolCacheDir := toolCacheDir, codeQLCmd := codeQLCmd }

/-- `isLocal(configPath)`: a `./` prefix, or the absence of `@`. -/
def isLocal (configPath : Str) : Bool :=
  if strStartsWith configPath ("./".toList) then true
  else !configPath.contains '@'

/-- `getLocalConfig(configFile, checkoutPath)`: a purely textual
containment check of the (already resolved) config path against the
checkout root, then an existence check, then the YAML parse.  Note the
source does not canonicalize either path here. -/
def getLocalConfig (env : Env) (configFile checkoutPath : Str) : Except CfgError UserConfig :=
  if !strStartsWith (configFile ++ [pathSep]) (checkoutPath ++ [pathSep]) then
    .error (.configFileOutsideWorkspace configFile)
  else if !env.fsExists configFile then
    .error (.configFileDoesNotExist configFile)
  else
    .ok (env.localYaml configFile)

/-- `loadConfig(...)`: read the user config from the local checkout (the
path resolved against the checkout) or from a remote repository reference,
then process it. -/
def loadConfig (env : Env) (languagesInput queriesInput : Option Str) (configFile : Str)
    (tempDir toolCacheDir codeQLCmd checkoutPath : Str) : Except CfgError Config :=
  if isLocal configFile then
    match getLocalConfig env (pathResolve checkoutPath configFile) checkoutPath with
    | .error e => .error e
    | .ok yaml =>
      loadConfigWithYaml env yaml languagesInput queriesInput
        (pathResolve checkoutPath configFile) tempDir toolCacheDir codeQLCmd checkoutPath
  else
    match env.remoteConfig configFile with
    | .error e => .error e
    | .ok yaml =>
      loadConfigWithYaml env yaml languagesInput queriesInput
        configFile tempDir toolCacheDir codeQLCmd checkoutPath

/-- `getDefaultConfig(...)`: language resolution, default queries, then the
optional workflow queries.  The source performs no per-language
non-emptiness check on this path. -/
def getDefaultConfig (env : Env) (languagesInput queriesInput : Option Str)
    (tempDir toolCacheDir codeQLCmd checkoutPath : Str) : Except CfgError Config :=
  match getLanguages env.parseLang languagesInput env.repoLanguages with
  | .error e => .error e
  | .ok languages =>
    match addDefaultQueries env languages [] with
    | .error e => .error e
    | .ok queries =>
      match workflowStage env languages queriesInput queries tempDir checkoutPath with
      | .error e => .error e
      | .ok mq =>
        .ok { languages := languages, queries := mq.1, pathsIgnore := [], paths := [],
              originalUserInput := {}, tempDir := tempDir, toolCacheDir := toolCacheDir,
              codeQLCmd := codeQLCmd }

/-- `initConfig(...)`: parse the user config or produce the default one.  A
`.ok` result models the config that `saveConfig` then persists; an error
aborts before anything is persisted. -/
def initConfig (env : Env) (languagesInput queriesInput : Option Str)
    (configFile : Option Str) (tempDir toolCacheDir codeQLCmd checkoutPath : Str) :
    Except CfgError Config :=
  match configFile with
  | none => getDefaultConfig env languagesInput queriesInput tempDir toolCacheDir codeQLCmd checkoutPath
  | some f => loadConfig env languagesInput queriesInput f tempDir toolCacheDir codeQLCmd checkoutPath

/-- A benign concrete environment: one supported language `cpp`, a resolver
that always yields one `cpp` query, every path existing and real. -/
def envOk : Env where
  resolveQueries := fun _ _ => ⟨[("cpp".toList, ["/q/a.ql".toList])], [], []⟩
  fsExists := fun _ => true
  fsRealpath := fun p => p
  parseLang := fun s => if s = "cpp".toList then some ("cpp".toList) else none
  repoLanguages := ["cpp".toList]
  checkoutExternalRepository := fun _ _ _ => "/ext".toList
  localYaml := fun _ => {}
  remoteConfig := fun _ => .error (.remoteConfigError [])

/-- Like `envOk` but the resolver finds no queries at all. -/
def envEmptyQ : Env := { envOk with resolveQueries := fun _ _ => ⟨[], [], []⟩ }

/-- Like `envOk` but every resolved query lands in the `noDeclaredLanguage`
bucket. -/
def envNoLang : Env :=
  { envOk with resolveQueries := fun _ _ => ⟨[], ["/q/bad.ql".toList], []⟩ }

/-- A checkout at `/repo` with a path `../outside` that exists and
canonicalizes outside the checkout; everything else is missing. -/
def envTrav : Env :=
  { envOk with
    fsExists := fun p => p = "/repo/../outside".toList || p = "/repo".toList
    fsRealpath := fun p => if p = "/repo/../outside".toList then "/outside".toList else p }

/-- A checkout at `/repo` containing a symlink `link.yml` whose canonical
location is outside the checkout. -/
def envSym : Env :=
  { envOk with
    fsRealpath := fun p =>
      if p = "/repo/./link.yml".toList then "/outside/cfg.yml".toList else p }

example :
    loadConfig envOk none none ("./config.yml".toList) [] [] [] ("/repo".toList) =
      .ok { languages := ["cpp".toList],
            queries := [("cpp".toList, ⟨["/q/a.ql".toList], []⟩)],
            pathsIgnore := [], paths := [], originalUserInput := {},
            tempDir := [], toolCacheDir := [], codeQLCmd := [] } := by decide

example :
    getDefaultConfig envEmptyQ (some ("cpp".toList)) none [] [] [] ("/repo".toList) =
      .ok { languages := ["cpp".toList], queries := [], pathsIgnore := [], paths := [],
            originalUserInput := {}, tempDir := [], toolCacheDir := [], codeQLCmd := [] } := by
  decide

example :
    loadConfig envEmptyQ (some ("cpp".toList)) none ("./config.yml".toList) [] [] []
      ("/repo".toList) = .error (.noQueriesForLanguage ("cpp".toList)) := by decide

example :
    addLocalQueries envTrav [] ("../outside".toList) ("/repo".toList) none =
      .error (.localPathOutsideOfRepository none ("../outside".toList)) := by decide

example :
    addLocalQueries envTrav [] ("missing".toList) ("/repo".toList) none =
      .error (.localPathDoesNotExist none ("missing".toList)) := by decide

example :
    parseQueryUses envOk [] [] ("a/b@v1@v2".toList) [] ("/repo".toList) none =
      .error (.queryUsesInvalid none (some ("a/b@v1@v2".toList))) := by decide

example :
    loadConfig envSym (some ("cpp".toList)) none ("./link.yml".toList) [] [] []
      ("/repo".toList) =
      .ok { languages := ["cpp".toList],
            queries := [("cpp".toList, ⟨["/q/a.ql".toList], []⟩)],
            pathsIgnore := [], paths := [], originalUserInput := {},
            tempDir := [], toolCacheDir := [], codeQLCmd := [] } := by decide

theorem head?_append_left {α : Type} (x y : List α) (h : x ≠ []) :
    (x ++ y).head? = x.head? := by
  cases x with
  | nil => exact absurd rfl h
  | cons a as => rfl

theorem stripLeadingSlashes_head : ∀ l : Str, (stripLeadingSlashes l).head? ≠ some '/'
  | [] => by simp [stripLeadingSlashes]
  | c :: cs => by
    by_cases hc : c = '/'
    · simpa [stripLeadingSlashes, hc] using stripLeadingSlashes_head cs
    · simp [stripLeadingSlashes, hc]

theorem stripLeadingSlashes_of_head (l : Str) (h : l.head? ≠ some '/') :
    stripLeadingSlashes l = l := by
  cases l with
  | nil => rfl
  | cons c cs =>
    have hc : c ≠ '/' := by simpa using h
    simp [stripLeadingSlashes, hc]

theorem dropTrailingStarsRev_spec (r : Str) :
    (∃ rest, r = '*' :: '*' :: '/' :: rest ∧ dropTrailingStarsRev r = '/' :: rest) ∨
      dropTrailingStarsRev r = r := by
  unfold dropTrailingStarsRev
  split
  · next rest => exact Or.inl ⟨rest, rfl, rfl⟩
  · exact Or.inr rfl

theorem dropTrailingStarsRev_slash (rest : Str) :
    dropTrailingStarsRev ('/' :: rest) = '/' :: rest := by
  rcases dropTrailingStarsRev_spec ('/' :: rest) with ⟨r', hr, -⟩ | hv
  · simp at hr
  · exact hv

theorem dropTrailingStarsRev_idem (r : Str) :
    dropTrailingStarsRev (dropTrailingStarsRev r) = dropTrailingStarsRev r := by
  rcases dropTrailingStarsRev_spec r with ⟨rest, -, hv⟩ | hv
  · rw [hv, dropTrailingStarsRev_slash]
  · rw [hv, hv]

theorem dropTrailingStars_head (l : Str) (h : l.head? ≠ some '/') :
    (dropTrailingStars l).head? ≠ some '/' := by
  unfold dropTrailingStars
  rcases dropTrailingStarsRev_spec l.reverse with ⟨rest, hr, hv⟩ | hv
  · rw [hv]
    have hl : l = ('/' :: rest).reverse ++ ['*', '*'] := by
      have h2 : l.reverse.reverse = l := List.reverse_reverse l
      rw [← h2, hr]
      simp
    rw [hl] at h
    rwa [head?_append_left _ _ (by simp)] at h
  · rw [hv, List.reverse_reverse]
    exact h

theorem dropTrailingStars_idem (l : Str) :
    dropTrailingStars (dropTrailingStars l) = dropTrailingStars l := by
  unfold dropTrailingStars
  rw [List.reverse_reverse, dropTrailingStarsRev_idem]

/-- Claim C9: path-filter normalization is idempotent — whenever
`validateAndSanitisePath` succeeds, running it again on its own result
succeeds and returns the same string. -/
theorem validateAndSanitisePath_idempotent (p propertyName configFile r : Str)
    (h : validateAndSanitisePath p propertyName configFile = .ok r) :
    validateAndSanitisePath r propertyName configFile = .ok r := by
  have hhead : (dropTrailingStars (stripLeadingSlashes p)).head? ≠ some '/' :=
    dropTrailingStars_head _ (stripLeadingSlashes_head p)
  simp only [validateAndSanitisePath] at h ⊢
  split_ifs at h with h1 h2 h3
  rw [Except.ok.injEq] at h
  subst h
  rw [stripLeadingSlashes_of_head _ hhead, dropTrailingStars_idem]
  split_ifs
  rfl

/-- Witness for C9: `"/a/**/b"` normalizes to `"a/**/b"`, on which the
validator is the identity. -/
theorem validateAndSanitisePath_idempotent_witness :
    validateAndSanitisePath ("a/**/b".toList) ("paths".toList) ("conf.yml".toList) =
      .ok ("a/**/b".toList) :=
  validateAndSanitisePath_idempotent ("/a/**/b".toList) ("paths".toList) ("conf.yml".toList)
    ("a/**/b".toList) (by decide)

/-- Claim C3 fails on the code: `validateAndSanitisePath "/foo/**"` returns
`"foo/"` — the trailing `**` is dropped but the slash is kept — which is not
the claimed `"foo"`. -/
theorem validateAndSanitisePath_foo_stars_counterexample :
    validateAndSanitisePath ("/foo/**".toList) ("paths".toList) ("conf.yml".toList) =
      .ok ("foo/".toList) ∧ ("foo/".toList : Str) ≠ ("foo".toList : Str) := by
  decide

/-- Claim C3 (amended): for every property name and config file,
`validateAndSanitisePath "/foo/**"` returns exactly `"foo/"`: the leading
slash is stripped and the trailing `**` is dropped (keeping the slash)
before the emptiness and wildcard checks run, which then pass. -/
theorem validateAndSanitisePath_foo_stars (propertyName configFile : Str) :
    validateAndSanitisePath ("/foo/**".toList) propertyName configFile =
      .ok ("foo/".toList) := rfl

/-- Claim C7: with an extra search path (custom queries), `runResolveQueries`
fails with an error carrying every offending file whenever the resolver's
`noDeclaredLanguage` or `multipleDeclaredLanguages` bucket is non-empty;
with no extra search path (builtin suites) both checks are skipped and the
merge always succeeds. -/
theorem runResolveQueries_validation (env : Env) (m : QueriesMap) (toResolve : List Str)
    (p : Str) :
    ((env.resolveQueries toResolve (some p)).noDeclaredLanguage ≠ [] →
      runResolveQueries env m toResolve (some p) =
        .error (.noDeclaredLanguage (env.resolveQueries toResolve (some p)).noDeclaredLanguage)) ∧
    ((env.resolveQueries toResolve (some p)).noDeclaredLanguage = [] →
      (env.resolveQueries toResolve (some p)).multipleDeclaredLanguages ≠ [] →
      runResolveQueries env m toResolve (some p) =
        .error (.multipleDeclaredLanguages
          (env.resolveQueries toResolve (some p)).multipleDeclaredLanguages)) ∧
    runResolveQueries env m toResolve none =
      .ok (mergeResolved m (env.resolveQueries toResolve none).byLanguage none) := by
  refine ⟨fun hn => ?_, fun h0 hm => ?_, rfl⟩
  · simp [runResolveQueries, validateQueries, hn]
  · simp [runResolveQueries, validateQueries, h0, hm]

/-- Witness for C7: in `envNoLang` every resolution puts `/q/bad.ql` into the
`noDeclaredLanguage` bucket, so resolving with a search path fails listing it. -/
theorem runResolveQueries_validation_witness :
    runResolveQueries envNoLang [] ["q.ql".toList] (some ("/repo".toList)) =
      .error (.noDeclaredLanguage ["/q/bad.ql".toList]) :=
  (runResolveQueries_validation envNoLang [] ["q.ql".toList] ("/repo".toList)).1 (by decide)

/-- Claim C6: a local query path whose joined target is missing fails with
the does-not-exist error; one whose joined target exists but whose canonical
path escapes the canonical checkout root fails with the distinct
outside-of-repository error. -/
theorem addLocalQueries_error_distinction (env : Env) (m : QueriesMap)
    (localQueryPath checkoutPath : Str) (configFile : Option Str) :
    (env.fsExists (pathJoin checkoutPath localQueryPath) = false →
      addLocalQueries env m localQueryPath checkoutPath configFile =
        .error (.localPathDoesNotExist configFile localQueryPath)) ∧
    (env.fsExists (pathJoin checkoutPath localQueryPath) = true →
      strStartsWith (env.fsRealpath (pathJoin checkoutPath localQueryPath) ++ [pathSep])
          (env.fsRealpath checkoutPath ++ [pathSep]) = false →
      addLocalQueries env m localQueryPath checkoutPath configFile =
        .error (.localPathOutsideOfRepository configFile localQueryPath)) := by
  constructor
  · intro he
    simp [addLocalQueries, he]
  · intro he hs
    simp [addLocalQueries, he, hs]

/-- Witness for C6: under `envTrav`, `../outside` exists but canonicalizes to
`/outside`, so it hits the trust-boundary error, while `missing` hits the
does-not-exist error. -/
theorem addLocalQueries_error_distinction_witness :
    addLocalQueries envTrav [] ("../outside".toList) ("/repo".toList) none =
        .error (.localPathOutsideOfRepository none ("../outside".toList)) ∧
    addLocalQueries envTrav [] ("missing".toList) ("/repo".toList) none =
        .error (.localPathDoesNotExist none ("missing".toList)) :=
  ⟨(addLocalQueries_error_distinction envTrav [] ("../outside".toList) ("/repo".toList) none).2
      (by decide) (by decide),
    (addLocalQueries_error_distinction envTrav [] ("missing".toList) ("/repo".toList) none).1
      (by decide)⟩

/-- Claim C10: a config-file reference containing no `@` is always classified
as local — even without a `./` prefix — and `loadConfig` reads it from the
path resolved against the checkout root, never via the remote fetch. -/
theorem loadConfig_no_at_is_local (env : Env) (languagesInput queriesInput : Option Str)
    (configFile tempDir toolCacheDir codeQLCmd checkoutPath : Str)
    (h : configFile.contains '@' = false) :
    isLocal configFile = true ∧
    loadConfig env languagesInput queriesInput configFile tempDir toolCacheDir codeQLCmd
        checkoutPath =
      (match getLocalConfig env (pathResolve checkoutPath configFile) checkoutPath with
       | .error e => .error e
       | .ok yaml =>
         loadConfigWithYaml env yaml languagesInput queriesInput
           (pathResolve checkoutPath configFile) tempDir toolCacheDir codeQLCmd checkoutPath) := by
  have hl : isLocal configFile = true := by
    unfold isLocal
    split_ifs with hp
    · rfl
    · simp only [h]; rfl
  exact ⟨hl, by simp [loadConfig, hl]⟩

/-- Witness for C10: `"owner/repo/file.yml"` (a forgotten `@ref`) is treated
as a local path under the checkout. -/
theorem loadConfig_no_at_is_local_witness :
    isLocal ("owner/repo/file.yml".toList) = true ∧
    loadConfig envOk none none ("owner/repo/file.yml".toList) [] [] [] ("/repo".toList) =
      (match getLocalConfig envOk (pathResolve ("/repo".toList) ("owner/repo/file.yml".toList))
          ("/repo".toList) with
       | .error e => .error e
       | .ok yaml =>
         loadConfigWithYaml envOk yaml none none
           (pathResolve ("/repo".toList) ("owner/repo/file.yml".toList)) [] [] []
           ("/repo".toList)) :=
  loadConfig_no_at_is_local envOk none none ("owner/repo/file.yml".toList) [] [] []
    ("/repo".toList) (by decide)

/-- Claim C4 fails on the code: `getLocalConfig` checks only the textual,
uncanonicalized path.  In `envSym` the resolved config path is a symlink
whose canonical location `/outside/cfg.yml` is not under the canonical
checkout root, yet `loadConfig` succeeds instead of failing with the
outside-of-workspace error. -/
theorem loadConfig_symlink_escape_accepted :
    loadConfig envSym (some ("cpp".toList)) none ("./link.yml".toList) [] [] []
        ("/repo".toList) =
      .ok { languages := ["cpp".toList],
            queries := [("cpp".toList, ⟨["/q/a.ql".toList], []⟩)],
            pathsIgnore := [], paths := [], originalUserInput := {},
            tempDir := [], toolCacheDir := [], codeQLCmd := [] } ∧
    strStartsWith
        (envSym.fsRealpath (pathResolve ("/repo".toList) ("./link.yml".toList)) ++ [pathSep])
        (envSym.fsRealpath ("/repo".toList) ++ [pathSep]) = false := by
  decide

/-- Claim C4 (amended): for local config files the containment check is
purely textual on the resolved path — no symlink canonicalization is
applied (unlike local query paths): loading succeeds only if the resolved
path is textually prefixed by the checkout root plus a separator, and fails
with the outside-of-workspace error otherwise. -/
theorem getLocalConfig_textual_containment (env : Env) (configFile checkoutPath : Str)
    (u : UserConfig) :
    (getLocalConfig env configFile checkoutPath = .ok u →
      strStartsWith (configFile ++ [pathSep]) (checkoutPath ++ [pathSep]) = true) ∧
    (strStartsWith (configFile ++ [pathSep]) (checkoutPath ++ [pathSep]) = false →
      getLocalConfig env configFile checkoutPath =
        .error (.configFileOutsideWorkspace configFile)) := by
  constructor
  · intro h
    cases hb : strStartsWith (configFile ++ [pathSep]) (checkoutPath ++ [pathSep]) with
    | true => rfl
    | false => simp [getLocalConfig, hb] at h
  · intro hs
    simp [getLocalConfig, hs]

/-- Witness for C4 (amended): a contained path passes the textual check; a
path outside the root is rejected with the outside-of-workspace error. -/
theorem getLocalConfig_textual_containment_witness :
    strStartsWith ("/repo/cfg.yml".toList ++ [pathSep]) ("/repo".toList ++ [pathSep]) = true ∧
    getLocalConfig envOk ("/elsewhere/cfg.yml".toList) ("/repo".toList) =
      .error (.configFileOutsideWorkspace ("/elsewhere/cfg.yml".toList)) :=
  ⟨(getLocalConfig_textual_containment envOk ("/repo/cfg.yml".toList) ("/repo".toList) {}).1
      (by decide),
    (getLocalConfig_textual_containment envOk ("/elsewhere/cfg.yml".toList) ("/repo".toList)
      {}).2 (by decide)⟩

theorem splitOnChar_ne_nil (c : Char) (l : Str) : splitOnChar c l ≠ [] := by
  cases l with
  | nil => simp [splitOnChar]
  | cons x xs =>
    simp only [splitOnChar]
    cases splitOnChar c xs with
    | nil => split_ifs <;> simp
    | cons h t => split_ifs <;> simp

theorem splitOnChar_not_mem (c : Char) (l : Str) (h : c ∉ l) :
    splitOnChar c l = [l] := by
  induction l with
  | nil => rfl
  | cons x xs ih =>
    have hx : ¬x = c := fun hc => h (hc ▸ List.mem_cons_self x xs)
    have ih2 := ih (fun hm => h (List.mem_cons_of_mem x hm))
    simp [splitOnChar, ih2, hx]

theorem splitOnChar_append (c : Char) (l₁ l₂ : Str) (h : c ∉ l₁) :
    splitOnChar c (l₁ ++ c :: l₂) = l₁ :: splitOnChar c l₂ := by
  induction l₁ with
  | nil =>
    simp only [List.nil_append, splitOnChar]
    cases hs : splitOnChar c l₂ with
    | nil => exact absurd hs (splitOnChar_ne_nil c l₂)
    | cons hd tl => simp
  | cons x xs ih =>
    have hx : ¬x = c := fun hc => h (hc ▸ List.mem_cons_self x xs)
    have ih2 := ih (fun hm => h (List.mem_cons_of_mem x hm))
    simp [splitOnChar, ih2, hx]

/-- Claim C5 fails on the code: a `uses` reference with two `@`s — here
`"a/b@v1@v2"`, classified remote since it contains `/` and `@` — is rejected
as invalid by `addRemoteQueries` (`split("@")` must yield exactly two
parts); it is not parsed with everything after the last `@` as the ref. -/
theorem parseQueryUses_double_at_rejected :
    parseQueryUses envOk [] [] ("a/b@v1@v2".toList) [] ("/repo".toList) none =
      .error (.queryUsesInvalid none (some ("a/b@v1@v2".toList))) ∧
    addRemoteQueries envOk [] ("a/b@v1@v2".toList) [] none =
      .error (.queryUsesInvalid none (some ("a/b@v1@v2".toList))) := by
  decide

/-- Claim C5 (amended): a RemoteRepo reference must contain exactly one `@`.
For `locator@ref` with no further `@`, the locator is split on `/`; with
owner and repo segments non-blank, resolution proceeds by checking out
`owner/repo` at `ref` and resolving the remaining segments (joined by `/`)
under the checkout. -/
theorem addRemoteQueries_single_at_parse (env : Env) (m : QueriesMap)
    (locator ref t0 t1 : Str) (rest : List Str) (tempDir : Str) (configFile : Option Str)
    (hl : '@' ∉ locator) (hr : '@' ∉ ref)
    (hsplit : splitOnChar '/' locator = t0 :: t1 :: rest)
    (h0 : (trimStr t0).isEmpty = false) (h1 : (trimStr t1).isEmpty = false) :
    addRemoteQueries env m (locator ++ '@' :: ref) tempDir configFile =
      runResolveQueries env m
        [if rest.length > 0 then
            pathJoin (env.checkoutExternalRepository (t0 ++ '/' :: t1) ref tempDir)
              (joinSlash rest)
          else env.checkoutExternalRepository (t0 ++ '/' :: t1) ref tempDir]
        (some (env.checkoutExternalRepository (t0 ++ '/' :: t1) ref tempDir)) := by
  have hs : splitOnChar '@' (locator ++ '@' :: ref) = [locator, ref] := by
    rw [splitOnChar_append '@' locator ref hl, splitOnChar_not_mem '@' ref hr]
  simp [addRemoteQueries, hs, hsplit, h0, h1]

/-- Witness for C5 (amended) at `"a/b/c/d@v1"`: owner `a`, repo `b`, subpath
`c/d`, ref `v1`. -/
theorem addRemoteQueries_single_at_parse_witness :
    addRemoteQueries envOk [] ("a/b/c/d".toList ++ '@' :: "v1".toList) [] none =
      runResolveQueries envOk []
        [if (["c".toList, "d".toList] : List Str).length > 0 then
            pathJoin (envOk.checkoutExternalRepository ("a".toList ++ '/' :: "b".toList)
                ("v1".toList) [])
              (joinSlash ["c".toList, "d".toList])
          else envOk.checkoutExternalRepository ("a".toList ++ '/' :: "b".toList)
              ("v1".toList) []]
        (some (envOk.checkoutExternalRepository ("a".toList ++ '/' :: "b".toList)
          ("v1".toList) [])) :=
  addRemoteQueries_single_at_parse envOk [] ("a/b/c/d".toList) ("v1".toList)
    ("a".toList) ("b".toList) ["c".toList, "d".toList] [] none
    (by decide) (by decide) (by decide) (by decide) (by decide)

theorem parseLangList_fold (parseLang : Str → Option Str) (ts : List Str)
    (p u : List Str) :
    ts.foldl (fun acc language =>
        match parseLang language with
        | none => (acc.1, acc.2 ++ [language])
        | some q => (if acc.1.contains q then acc.1 else acc.1 ++ [q], acc.2)) (p, u) =
      ((ts.filterMap parseLang).foldl
          (fun acc x => if acc.contains x then acc else acc ++ [x]) p,
        u ++ ts.filter (fun t => (parseLang t).isNone)) := by
  induction ts generalizing p u with
  | nil => simp
  | cons t ts ih =>
    cases hp : parseLang t with
    | none =>
      simp only [List.foldl_cons, hp]
      rw [ih]
      simp [List.filterMap_cons, hp, List.filter_cons]
    | some q =>
      simp only [List.foldl_cons, hp]
      rw [ih]
      simp [List.filterMap_cons, hp, List.filter_cons]

theorem parseLangList_eq (parseLang : Str → Option Str) (ts : List Str) :
    parseLangList parseLang ts =
      (dedupFirst (ts.filterMap parseLang),
        ts.filter (fun t => (parseLang t).isNone)) := by
  unfold parseLangList dedupFirst
  simpa using parseLangList_fold parseLang ts [] []

/-- Claim C8: on explicit input, `getLanguages` splits on commas, trims,
drops empty entries and (through `parseLanguage`) deduplicates preserving
first-seen order; it raises the unknown-languages error listing every
unrecognized token, and the no-languages error when both the explicit input
and repository auto-detection produce nothing. -/
theorem getLanguages_explicit_contract (parseLang : Str → Option Str) (qi : Str)
    (repoLangs : List Str) :
    (explicitLangTokens qi ≠ [] →
      ((∀ t ∈ explicitLangTokens qi, (parseLang t).isSome) →
        getLanguages parseLang (some qi) repoLangs =
          .ok (dedupFirst ((explicitLangTokens qi).filterMap parseLang))) ∧
      ((explicitLangTokens qi).filter (fun t => (parseLang t).isNone) ≠ [] →
        getLanguages parseLang (some qi) repoLangs =
          .error (.unknownLanguages
            ((explicitLangTokens qi).filter (fun t => (parseLang t).isNone))))) ∧
    (explicitLangTokens qi = [] → getLanguagesInRepo parseLang repoLangs = [] →
      getLanguages parseLang (some qi) repoLangs = .error .noLanguages) := by
  refine ⟨fun hne => ⟨fun hall => ?_, fun hbad => ?_⟩, fun h1 h2 => ?_⟩
  · have hfil : (explicitLangTokens qi).filter (fun t => (parseLang t).isNone) = [] := by
      rw [List.filter_eq_nil_iff]
      intro t ht
      have hs := hall t ht
      cases hq : parseLang t <;> simp [hq] at hs ⊢
    simp [getLanguages, hne, parseLangList_eq, hfil]
  · simp [getLanguages, hne, parseLangList_eq, hbad]
  · simp [getLanguages, h1, h2]

/-- Witness for C8: `" cpp , ,cpp"` yields tokens `["cpp", "cpp"]`, all
known, deduplicated to `["cpp"]`. -/
theorem getLanguages_explicit_contract_witness :
    getLanguages envOk.parseLang (some (" cpp , ,cpp".toList)) [] = .ok ["cpp".toList] :=
  ((getLanguages_explicit_contract envOk.parseLang (" cpp , ,cpp".toList) []).1
    (by decide)).1 (by decide)

theorem checkQueriesNotEmpty_ok (languages : List Str) (m : QueriesMap) (v : Unit)
    (h : checkQueriesNotEmpty languages m = .ok v) :
    ∀ language ∈ languages, langHasQueries m language = true := by
  intro language hmem
  unfold checkQueriesNotEmpty at h
  cases hf : languages.find? (fun l => !langHasQueries m l) with
  | some l => rw [hf] at h; exact Except.noConfusion h
  | none =>
    have hb := List.find?_eq_none.mp hf language hmem
    simpa using hb

theorem loadConfigWithYaml_languages_have_queries (env : Env) (yaml : UserConfig)
    (languagesInput queriesInput : Option Str)
    (configFile tempDir toolCacheDir codeQLCmd checkoutPath : Str) (cfg : Config)
    (h : loadConfigWithYaml env yaml languagesInput queriesInput configFile tempDir
        toolCacheDir codeQLCmd checkoutPath = .ok cfg) :
    ∀ language ∈ cfg.languages, langHasQueries cfg.queries language = true := by
  unfold loadConfigWithYaml at h
  split at h
  · exact Except.noConfusion h
  split at h
  · exact Except.noConfusion h
  split at h
  · exact Except.noConfusion h
  split at h
  · exact Except.noConfusion h
  split at h
  · exact Except.noConfusion h
  split at h
  · exact Except.noConfusion h
  injection h with h
  subst h
  rename_i hchk
  exact checkQueriesNotEmpty_ok _ _ _ hchk

/-- Claim C2 (amended): on the config-file path, `loadConfig` only returns
(and hence `initConfig` only persists) a config in which every resolved
language has at least one builtin or custom query; an empty per-language set
is a fatal error there.  (`getDefaultConfig` performs no such check — see
the counterexample.) -/
theorem loadConfig_empty_queries_fatal (env : Env) (languagesInput queriesInput : Option Str)
    (configFile tempDir toolCacheDir codeQLCmd checkoutPath : Str) (cfg : Config)
    (h : loadConfig env languagesInput queriesInput configFile tempDir toolCacheDir
        codeQLCmd checkoutPath = .ok cfg) :
    ∀ language ∈ cfg.languages, langHasQueries cfg.queries language = true := by
  unfold loadConfig at h
  split at h
  · split at h
    · exact Except.noConfusion h
    · exact loadConfigWithYaml_languages_have_queries _ _ _ _ _ _ _ _ _ _ h
  · split at h
    · exact Except.noConfusion h
    · exact loadConfigWithYaml_languages_have_queries _ _ _ _ _ _ _ _ _ _ h

/-- Claim C2 fails on the no-config-file path: `getDefaultConfig` performs
no per-language emptiness check, so with a resolver yielding no queries it
silently succeeds with a config in which language `cpp` has no queries. -/
theorem getDefaultConfig_no_empty_query_check :
    getDefaultConfig envEmptyQ (some ("cpp".toList)) none [] [] [] ("/repo".toList) =
      .ok { languages := ["cpp".toList], queries := [], pathsIgnore := [], paths := [],
            originalUserInput := {}, tempDir := [], toolCacheDir := [], codeQLCmd := [] } ∧
    langHasQueries [] ("cpp".toList) = false := by
  decide

/-- Witness for C2 (amended): a successful concrete `loadConfig` run indeed
leaves `cpp` with a non-empty query set. -/
theorem loadConfig_empty_queries_fatal_witness :
    langHasQueries [("cpp".toList, ⟨["/q/a.ql".toList], []⟩)] ("cpp".toList) = true :=
  loadConfig_empty_queries_fatal envOk none none ("./config.yml".toList) [] [] []
    ("/repo".toList)
    { languages := ["cpp".toList], queries := [("cpp".toList, ⟨["/q/a.ql".toList], []⟩)],
      pathsIgnore := [], paths := [], originalUserInput := {}, tempDir := [],
      toolCacheDir := [], codeQLCmd := [] }
    (by decide) ("cpp".toList) (by decide)

theorem parseUsesList_trace (env : Env) (languages : List Str) (qs : List Str)
    (tempDir checkoutPath : Str) (configFile : Option Str) :
    ∀ (m m' : QueriesMap) (tr : List TraceEv),
      parseUsesList env languages qs m tempDir checkoutPath configFile = .ok (m', tr) →
      tr = qs.map TraceEv.uses := by
  induction qs with
  | nil =>
    intro m m' tr h
    simp only [parseUsesList, Except.ok.injEq, Prod.mk.injEq] at h
    simp [← h.2]
  | cons u rest ih =>
    intro m m' tr h
    simp only [parseUsesList] at h
    cases hp : parseQueryUses env languages m u tempDir checkoutPath configFile with
    | error e => simp [hp] at h
    | ok m2 =>
      simp only [hp] at h
      cases hrec : parseUsesList env languages rest m2 tempDir checkoutPath configFile with
      | error e => simp [hrec] at h
      | ok pr =>
        obtain ⟨m3, tr3⟩ := pr
        simp only [hrec, Except.ok.injEq, Prod.mk.injEq] at h
        obtain ⟨h1, h2⟩ := h
        subst h2
        rw [List.map_cons, ih m2 m3 tr3 hrec]

theorem parseConfigQueries_trace (env : Env) (languages : List Str) (qs : List QueryEntry)
    (tempDir checkoutPath configFile : Str) :
    ∀ (m m' : QueriesMap) (tr : List TraceEv),
      parseConfigQueries env languages qs m tempDir checkoutPath configFile = .ok (m', tr) →
      tr = (qs.filterMap (fun e => e.uses)).map TraceEv.uses := by
  induction qs with
  | nil =>
    intro m m' tr h
    simp only [parseConfigQueries, Except.ok.injEq, Prod.mk.injEq] at h
    simp [← h.2]
  | cons e rest ih =>
    intro m m' tr h
    simp only [parseConfigQueries] at h
    cases hu : e.uses with
    | none => simp [hu] at h
    | some u =>
      simp only [hu] at h
      cases hp : parseQueryUses env languages m u tempDir checkoutPath (some configFile) with
      | error err => simp [hp] at h
      | ok m2 =>
        simp only [hp] at h
        cases hrec : parseConfigQueries env languages rest m2 tempDir checkoutPath configFile with
        | error err => simp [hrec] at h
        | ok pr =>
          obtain ⟨m3, tr3⟩ := pr
          simp only [hrec, Except.ok.injEq, Prod.mk.injEq] at h
          obtain ⟨h1, h2⟩ := h
          subst h2
          simp only [List.filterMap_cons, hu, List.map_cons]
          rw [ih m2 m3 tr3 hrec]

/-- The trace contributed by the workflow (run-parameter) query stage:
empty when the input is absent or empty, otherwise one `uses` event per
comma-separated piece of the trimmed, `+`-stripped input. -/
def workflowTracePart (queriesInput : Option Str) : List TraceEv :=
  match queriesInput with
  | some qi =>
    if qi.isEmpty then []
    else (splitOnChar ',' (stripOnePlus (trimStr qi))).map TraceEv.uses
  | none => []

/-- The trace contributed by the config-file query stage: one `uses` event
per entry, and only when `shouldAddConfigFileQueries` allows the stage. -/
def configTracePart (queriesInput : Option Str) (yq : Option (List QueryEntry)) :
    List TraceEv :=
  if shouldAddConfigFileQueries queriesInput then
    ((yq.getD []).filterMap (fun e => e.uses)).map TraceEv.uses
  else []

/-- The map produced by `addDefaultQueries` on an empty accumulator. -/
def defaultQueriesMap (env : Env) (languages : List Str) : QueriesMap :=
  mergeResolved [] (env.resolveQueries (defaultSuites languages) none).byLanguage none

theorem addDefaultQueries_nil_ok (env : Env) (languages : List Str) :
    addDefaultQueries env languages [] = .ok (defaultQueriesMap env languages) := rfl

theorem workflowStage_trace (env : Env) (languages : List Str) (queriesInput : Option Str)
    (m m' : QueriesMap) (tempDir checkoutPath : Str) (tr : List TraceEv)
    (h : workflowStage env languages queriesInput m tempDir checkoutPath = .ok (m', tr)) :
    tr = workflowTracePart queriesInput := by
  cases queriesInput with
  | none =>
    simp only [workflowStage, Except.ok.injEq, Prod.mk.injEq] at h
    simp [workflowTracePart, ← h.2]
  | some qi =>
    simp only [workflowStage] at h
    cases hqi : qi.isEmpty with
    | true =>
      simp only [hqi, if_true] at h
      simp only [Except.ok.injEq, Prod.mk.injEq] at h
      simp [workflowTracePart, hqi, ← h.2]
    | false =>
      simp only [hqi, Bool.false_eq_true, if_false] at h
      simp only [workflowTracePart, hqi, Bool.false_eq_true, if_false]
      exact parseUsesList_trace env languages (splitOnChar ',' (stripOnePlus (trimStr qi)))
        tempDir checkoutPath none m m' tr h

theorem configFileStage_trace (env : Env) (languages : List Str) (queriesInput : Option Str)
    (yamlQueries : Option (List QueryEntry)) (m m' : QueriesMap)
    (tempDir checkoutPath configFile : Str) (tr : List TraceEv)
    (h : configFileStage env languages queriesInput yamlQueries m tempDir checkoutPath
        configFile = .ok (m', tr)) :
    tr = configTracePart queriesInput yamlQueries := by
  unfold configFileStage at h
  unfold configTracePart
  cases hs : shouldAddConfigFileQueries queriesInput with
  | false =>
    simp only [hs, Bool.false_eq_true, if_false] at h ⊢
    simp only [Except.ok.injEq, Prod.mk.injEq] at h
    simp [← h.2]
  | true =>
    simp only [hs, if_true] at h ⊢
    cases yamlQueries with
    | none =>
      simp only [Except.ok.injEq, Prod.mk.injEq] at h
      simp [← h.2]
    | some qs =>
      simpa using parseConfigQueries_trace env languages qs tempDir checkoutPath configFile
        m m' tr h

theorem defaults_not_mem_workflowPart (queriesInput : Option Str) :
    TraceEv.defaults ∉ workflowTracePart queriesInput := by
  cases queriesInput with
  | none => simp [workflowTracePart]
  | some qi =>
    simp only [workflowTracePart]
    split_ifs <;> simp

theorem defaults_not_mem_configPart (queriesInput : Option Str)
    (yq : Option (List QueryEntry)) :
    TraceEv.defaults ∉ configTracePart queriesInput yq := by
  simp only [configTracePart]
  split_ifs <;> simp

/-- Claim C1: in `loadConfig`'s query merge, the sources contribute in
exactly this order and under exactly these conditions — default queries
first unless `disable-default-queries` is true; then the run-parameter
(workflow) queries whenever present and non-empty, with one leading `+`
stripped; then the config-file queries exactly when the run parameter is
absent, empty, or `+`-prefixed (`shouldAddConfigFileQueries`).  In
particular the defaults appear in the merge if and only if they are not
disabled, and a non-`+` run parameter excludes every config-file query
while leaving the defaults intact. -/
theorem computeQueries_merge_precedence (env : Env) (languages : List Str)
    (queriesInput : Option Str) (yaml : UserConfig) (tempDir checkoutPath configFile : Str)
    (m : QueriesMap) (tr : List TraceEv)
    (h : computeQueries env languages queriesInput yaml tempDir checkoutPath configFile =
      .ok (m, tr)) :
    tr = (if yaml.disableDefaultQueries.getD false then [] else [TraceEv.defaults]) ++
        workflowTracePart queriesInput ++ configTracePart queriesInput yaml.queries ∧
      (TraceEv.defaults ∈ tr ↔ yaml.disableDefaultQueries.getD false = false) := by
  simp only [computeQueries] at h
  cases hd : yaml.disableDefaultQueries.getD false with
  | true =>
    simp only [hd, if_true] at h
    cases hw : workflowStage env languages queriesInput [] tempDir checkoutPath with
    | error e => simp [hw] at h
    | ok pw =>
      obtain ⟨m2, tr2⟩ := pw
      simp only [hw] at h
      cases hc : configFileStage env languages queriesInput yaml.queries m2 tempDir
          checkoutPath configFile with
      | error e => simp [hc] at h
      | ok pc =>
        obtain ⟨m3, tr3⟩ := pc
        simp only [hc, Except.ok.injEq, Prod.mk.injEq] at h
        obtain ⟨h1, h2⟩ := h
        subst h2
        have hw2 := workflowStage_trace env languages queriesInput [] m2 tempDir
          checkoutPath tr2 hw
        have hc2 := configFileStage_trace env languages queriesInput yaml.queries m2 m3
          tempDir checkoutPath configFile tr3 hc
        constructor
        · simp only [hd, if_true, List.nil_append]
          rw [hw2, hc2]
        · rw [hw2, hc2]
          simp [defaults_not_mem_workflowPart queriesInput,
            defaults_not_mem_configPart queriesInput yaml.queries]
  | false =>
    simp only [hd, Bool.false_eq_true, if_false, addDefaultQueries_nil_ok] at h
    cases hw : workflowStage env languages queriesInput (defaultQueriesMap env languages)
        tempDir checkoutPath with
    | error e => simp [hw] at h
    | ok pw =>
      obtain ⟨m2, tr2⟩ := pw
      simp only [hw] at h
      cases hc : configFileStage env languages queriesInput yaml.queries m2 tempDir
          checkoutPath configFile with
      | error e => simp [hc] at h
      | ok pc =>
        obtain ⟨m3, tr3⟩ := pc
        simp only [hc, Except.ok.injEq, Prod.mk.injEq] at h
        obtain ⟨h1, h2⟩ := h
        subst h2
        have hw2 := workflowStage_trace env languages queriesInput
          (defaultQueriesMap env languages) m2 tempDir checkoutPath tr2 hw
        have hc2 := configFileStage_trace env languages queriesInput yaml.queries m2 m3
          tempDir checkoutPath configFile tr3 hc
        constructor
        · simp only [hd, Bool.false_eq_true, if_false]
          rw [hw2, hc2]
        · rw [hw2, hc2]
          simp [defaults_not_mem_workflowPart queriesInput,
            defaults_not_mem_configPart queriesInput yaml.queries]

/-- Witness for C1: one language, workflow input `"+security-extended"`, an
empty config file — the trace is the defaults followed by the workflow
suite, and the defaults are present since not disabled. -/
theorem computeQueries_merge_precedence_witness :
    ([TraceEv.defaults, TraceEv.uses ("security-extended".toList)] : List TraceEv) =
        (if ({} : UserConfig).disableDefaultQueries.getD false then [] else [TraceEv.defaults]) ++
          workflowTracePart (some ("+security-extended".toList)) ++
          configTracePart (some ("+security-extended".toList)) ({} : UserConfig).queries ∧
      (TraceEv.defaults ∈
          ([TraceEv.defaults, TraceEv.uses ("security-extended".toList)] : List TraceEv) ↔
        ({} : UserConfig).disableDefaultQueries.getD false = false) :=
  computeQueries_merge_precedence envOk ["cpp".toList] (some ("+security-extended".toList))
    {} [] [] [] [("cpp".toList, ⟨["/q/a.ql".toList, "/q/a.ql".toList], []⟩)]
    [TraceEv.defaults, TraceEv.uses ("security-extended".toList)] (by decide)
